import Mathlib

/-!
Verification of the psl-dns Parser/Compiler and Client against its
natural-language specification.  The Python sources are shallowly embedded:
strings are `List Char`, Python dicts are insertion-ordered association
lists, fallible code returns `Except PyError`, and the unbounded client
CNAME loop is modelled with explicit fuel.
-/

namespace PslDns

/-- Strings are modelled as lists of characters. -/
abbrev Str := List Char

/-- Python exception kinds that the embedded code can raise. -/
inductive PyError where
  | indexError
  | valueError
  | unsupportedRule
  deriving DecidableEq, Repr

/-- The whitespace characters stripped by Python `str.strip()`
(ASCII subset; the PSL input is ASCII/UTF-8 text). -/
def isPySpace (c : Char) : Bool :=
  c = ' ' || c = '\t' || c = '\n' || c = '\r' || c = '\x0b' || c = '\x0c'

/-- Python `str.lower()` on a single character (ASCII range, which is the
range exercised after IDNA encoding). -/
def pyLowerChar (c : Char) : Char :=
  if 'A' ≤ c && c ≤ 'Z' then Char.ofNat (c.toNat + 32) else c

/-- Python `str.lower()`. -/
def pyLower (s : Str) : Str := s.map pyLowerChar

/-- Python `str.strip()`: drop leading whitespace. -/
def pyStripLeft (s : Str) : Str := s.dropWhile isPySpace

/-- Python `str.strip()`: drop trailing whitespace. -/
def pyStripRight (s : Str) : Str := (s.reverse.dropWhile isPySpace).reverse

/-- Python `str.strip()`. -/
def pyStrip (s : Str) : Str := pyStripRight (pyStripLeft s)

/-- `PSLReader.get_rule_from_line`: strip the line; drop it when empty or a
`//` comment; otherwise lowercase it. -/
def get_rule_from_line (line : Str) : Option Str :=
  let candidate := pyStrip line
  if candidate = [] || ['/', '/'].isPrefixOf candidate then none
  else some (pyLower candidate)

/-! ## The rrsets mapping and the deSEC emitter shape -/

/-- DNS record types occurring in the compiled zone. -/
inductive RType where
  | PTR
  | CNAME
  | TXT
  deriving DecidableEq, Repr

/-- One emitted RRset (the deSEC provider shape: subname, ttl, type,
records), as built by `desec.Parser._update_rrsets`. -/
structure RRsetD where
  subname : Str
  ttl : Nat
  rtype : RType
  records : List Str
  deriving DecidableEq, Repr

/-- The `rrsets` mapping: a Python dict modelled as an insertion-ordered
association list.  Updating an existing key keeps its position, a new key is
appended; iteration (`list(self.rrsets)`) is insertion order. -/
abbrev RRMap := List (Str × List RRsetD)

def dictKeys (m : RRMap) : List Str := m.map Prod.fst

def dictLookup (m : RRMap) (k : Str) : Option (List RRsetD) :=
  match m with
  | [] => none
  | (k0, v0) :: rest => if k0 = k then some v0 else dictLookup rest k

def dictSet (m : RRMap) (k : Str) (v : List RRsetD) : RRMap :=
  if k ∈ dictKeys m then m.map (fun p => if p.1 = k then (k, v) else p)
  else m ++ [(k, v)]

/-- Datum of one content entry handed to `_update_rrsets`: the Python code
passes either a single string or a list of strings. -/
inductive RData where
  | str (s : Str)
  | list (l : List Str)
  deriving DecidableEq, Repr

/-- `desec.Parser._update_rrsets`: for a string datum, CNAME data get
`'.' + zone` appended; every non-TXT datum gets a trailing dot; the owner's
whole RRset list is replaced. -/
def update_rrsets (zone : Str) (ttl : Nat) (m : RRMap) (subname : Str)
    (contents : List (RType × RData)) : RRMap :=
  let rrsets := contents.map (fun c =>
    let rdatatype := c.1
    let data0 : List Str :=
      match c.2 with
      | .str s => [s ++ (if rdatatype = RType.CNAME then '.' :: zone else [])]
      | .list l => l
    let data := if rdatatype ≠ RType.TXT then data0.map (fun v => v ++ ['.']) else data0
    RRsetD.mk subname ttl rdatatype data)
  dictSet m subname rrsets

/-! ## Rule classification (`Parser.process_line`) -/

/-- Python's `idna` codec as used by `rule.encode('idna').decode('ascii')`.
On the lowercase-ASCII rule strings this program feeds it (including the
`*` and `!` sentinels and ASCII labels), the codec returns its input
unchanged; the embedding models that restriction of the codec. -/
def idnaEncode (s : Str) : Str := s

/-- Python's `str(b, 'idna')` decode as used by the Client.  Identity on the
ASCII, non-ACE-prefixed labels occurring in this development. -/
def idnaDecode (s : Str) : Str := s

/-- Parser rule buckets plus the SHA-256 accumulator state.  The hash state
is modelled by the byte/character stream fed to it so far, in order. -/
structure ParserState where
  regular_rules : List Str
  wildcard_exception_rules : List Str
  proper_wildcard_rules : List Str
  inline_wildcard_rules : List Str
  hashedInput : Str
  deriving DecidableEq, Repr

def initState : ParserState := ⟨[], [], [], [], []⟩

/-- `Parser.process_line`: feed the hash, lex the line, then classify.
`rule.find('*', 1) > 0` holds exactly when `'*'` occurs at an index ≥ 1,
i.e. in `rule.drop 1`; the inline-wildcard test runs first, then the
leading-`*` test, then the leading-`!` test. -/
def process_line (st : ParserState) (line : Str) : ParserState :=
  let st := { st with hashedInput := st.hashedInput ++ line }
  match get_rule_from_line line with
  | none => st
  | some rule =>
    if '*' ∈ rule.drop 1 then
      { st with inline_wildcard_rules := st.inline_wildcard_rules ++ [idnaEncode rule] }
    else if rule.head? = some '*' then
      { st with proper_wildcard_rules := st.proper_wildcard_rules ++ [idnaEncode rule] }
    else if rule.head? = some '!' then
      { st with wildcard_exception_rules :=
          st.wildcard_exception_rules ++ [idnaEncode (rule.drop 1)] }
    else
      { st with regular_rules := st.regular_rules ++ [idnaEncode rule] }

/-! ## The compile pipeline (`Parser._process`) -/

/-- `'*.{}'.format(rule)`. -/
def starDot (s : Str) : Str := '*' :: '.' :: s

/-- `'"{}"'.format(x)`. -/
def quoteStr (s : Str) : Str := '"' :: (s ++ ['"'])

/-- Python `s.split('.', 1)`: `some (before, after)` at the first dot,
`none` when `s` has no dot (where the two-way unpacking raises the
`ValueError` that the source catches). -/
def splitOnceDot (s : Str) : Option (Str × Str) :=
  if '.' ∈ s then
    some (s.takeWhile (fun c => c ≠ '.'), (s.dropWhile (fun c => c ≠ '.')).drop 1)
  else none

/-- Pass A (`_process_regular_rules`). -/
def process_regular_rules (zone : Str) (ttl : Nat) (m : RRMap)
    (rules : List Str) : RRMap :=
  rules.foldl (fun m suffix => update_rrsets zone ttl m suffix [(RType.PTR, RData.str suffix)]) m

/-- Pass B (`_process_regular_wildcard_rules`). -/
def process_regular_wildcard_rules (zone : Str) (ttl : Nat) (m : RRMap)
    (rules : List Str) : RRMap :=
  rules.foldl (fun m w => update_rrsets zone ttl m w [(RType.PTR, RData.str w)]) m

/-- First loop of `_process_wildcard_exception_rules`: starting from the
exception name, ascend until `*.<parent>` has an RRset; the dot-less case
breaks with `parent = '*'`.  The loop body always runs at least once
because the loop guard starts with `parent == rule`.  The `Nat` argument is
recursion fuel, strictly larger than the label count so the `0` case is
never reached (each iteration strips one label); it keeps the recursion
structural so that concrete zones evaluate by kernel reduction. -/
def findExceptionParent (m : RRMap) : Nat → Str → Str
  | 0, _ => ['*']
  | n + 1, parent =>
    match splitOnceDot parent with
    | none => ['*']
    | some (_, p) =>
      if starDot p ∈ dictKeys m then p else findExceptionParent m n p

/-- Second loop of `_process_wildcard_exception_rules`: from the wildcard
parent, find the nearest covering rule, preferring `parent` itself, then
`*.<parent's parent>`, then ascending further; ends at `'*'`.  Fueled like
`findExceptionParent`. -/
def findCoveringRule (m : RRMap) : Nat → Str → Str
  | 0, parent => parent
  | n + 1, parent =>
    if parent = ['*'] ∨ parent ∈ dictKeys m then parent
    else
      match splitOnceDot parent with
      | none => ['*']
      | some (_, p) =>
        if starDot p ∈ dictKeys m then starDot p else findCoveringRule m n p

/-- Pass C (`_process_wildcard_exception_rules`). -/
def process_wildcard_exception_rules (zone : Str) (ttl : Nat) (m : RRMap)
    (rules : List Str) : RRMap :=
  rules.foldl (fun m rule =>
    let parent0 := findExceptionParent m (rule.length + 1) rule
    let wildcard := starDot parent0
    let parent := findCoveringRule m (parent0.length + 1) parent0
    update_rrsets zone ttl m rule
      [(RType.PTR, RData.str parent),
       (RType.TXT, RData.list [quoteStr wildcard, quoteStr ('!' :: rule)])]) m

/-- `rule.rsplit('*', 1)[1]`: everything after the last `'*'`. -/
def lastStarParent (rule : Str) : Str :=
  (rule.reverse.takeWhile (fun c => c ≠ '*')).reverse

/-- The `defaultdict(list)` grouping of inline rules by their parent,
insertion-ordered by first appearance. -/
def groupInline (rules : List Str) : List (Str × List Str) :=
  rules.foldl (fun acc rule =>
    let parent := lastStarParent rule
    if acc.any (fun p => p.1 = parent) then
      acc.map (fun p => if p.1 = parent then (p.1, p.2 ++ [rule]) else p)
    else acc ++ [(parent, [rule])]) []

/-- `self.rrsets[wildcard][0]['records'][0]`.  In every reachable state the
owner maps to at least one RRset with at least one record (Python indexes
with `[0]` unconditionally); the default `[]` is never reached there. -/
def firstRecordOf (m : RRMap) (k : Str) : Str :=
  match dictLookup m k with
  | some (r :: _) => r.records.headD []
  | _ => []

/-- Pass D (`_process_inline_wildcard_rules`): group inline rules by the
part after their right-most `'*'`; at `'*' + parent` set a TXT RRset with
the quoted rules, appending the shadowed rule's first record (minus its
trailing dot) when that owner already existed.  No PTR remains there. -/
def process_inline_wildcard_rules (zone : Str) (ttl : Nat) (m : RRMap)
    (irules : List Str) : RRMap :=
  (groupInline irules).foldl (fun m pr =>
    let wildcard := '*' :: pr.1
    let rules1 :=
      if wildcard ∈ dictKeys m then pr.2 ++ [(firstRecordOf m wildcard).dropLast]
      else pr.2
    update_rrsets zone ttl m wildcard [(RType.TXT, RData.list (rules1.map quoteStr))]) m

/-- Pass E (`_prioritize_wildcard_exception_rules`): for each exception
rule, drop every owner whose name ends with `'.' + rule`. -/
def prioritize_wildcard_exception_rules (m : RRMap) (erules : List Str) : RRMap :=
  erules.foldl (fun m rule => m.filter (fun p => !(('.' :: rule).isSuffixOf p.1))) m

/-- Pass F (`_add_root_rule`). -/
def add_root_rule (zone : Str) (ttl : Nat) (m : RRMap) : RRMap :=
  update_rrsets zone ttl m ['*'] [(RType.PTR, RData.str ['*'])]

/-- The inner step of the wildcard-shadowing while-loop when the current
rule does not start with `'*'`: link an absent rule to `target` by CNAME,
then give it a child wildcard CNAME if absent. -/
def fixStep (zone : Str) (ttl : Nat) (m : RRMap) (rule target : Str) : RRMap :=
  let m1 :=
    if rule ∈ dictKeys m then m
    else update_rrsets zone ttl m rule [(RType.CNAME, RData.str target)]
  if starDot rule ∈ dictKeys m1 then m1
  else update_rrsets zone ttl m1 (starDot rule) [(RType.CNAME, RData.str rule)]

/-- The while-loop of `_fix_wildcard_shadowing` for one starting rule.
It exits when the rule and its child wildcard both exist, ascends one label
per iteration, and raises `IndexError` on an empty rule name (Python's
`rule[0]`).  The `Nat` argument is recursion fuel; each iteration strips at
least one character from the rule, so fuel `rule.length + 1` is never
exhausted and the `0` case is unreachable from `fix_wildcard_shadowing`
(kept structural for kernel evaluation of concrete zones). -/
def fixWhile (zone : Str) (ttl : Nat) : Nat → RRMap → Str → Except PyError RRMap
  | 0, m, _ => .ok m
  | n + 1, m, rule =>
    if rule ∈ dictKeys m ∧ starDot rule ∈ dictKeys m then .ok m
    else
      match splitOnceDot rule with
      | none =>
        match rule with
        | [] => .error .indexError
        | c :: rest =>
          .ok (if c = '*' then m else fixStep zone ttl m (c :: rest) ['*'])
      | some (_, nr) =>
        match rule with
        | [] => .error .indexError
        | c :: rest =>
          fixWhile zone ttl n
            (if c = '*' then m else fixStep zone ttl m (c :: rest) nr) nr

/-- Pass G (`_fix_wildcard_shadowing`): run the while-loop for every owner
present when the pass starts, in insertion order. -/
def fix_wildcard_shadowing (zone : Str) (ttl : Nat) (m : RRMap) :
    Except PyError RRMap :=
  (dictKeys m).foldlM (fun acc k => fixWhile zone ttl (k.length + 1) acc k) m

def natChars (n : Nat) : Str := (toString n).toList

/-- `Parser._process` under the deSEC profile: the six zone passes followed
by the apex TXT carrying `"<timestamp> <hexdigest>"`.  `sha256hex` is the
hash function applied to the accumulated input stream (hashlib is external
to the repository and is kept abstract). -/
def processAll (zone : Str) (ttl : Nat) (st : ParserState) (timestamp : Nat)
    (sha256hex : Str → Str) : Except PyError RRMap := do
  let m : RRMap := []
  let m := process_regular_rules zone ttl m st.regular_rules
  let m := process_regular_wildcard_rules zone ttl m st.proper_wildcard_rules
  let m := process_wildcard_exception_rules zone ttl m st.wildcard_exception_rules
  let m := process_inline_wildcard_rules zone ttl m st.inline_wildcard_rules
  let m := prioritize_wildcard_exception_rules m st.wildcard_exception_rules
  let m := add_root_rule zone ttl m
  let m ← fix_wildcard_shadowing zone ttl m
  pure (update_rrsets zone ttl m []
    [(RType.TXT, RData.list [quoteStr (natChars timestamp ++ ' ' :: sha256hex st.hashedInput)])])

/-- Full compile: feed every input line through `process_line`, then run
`_process`. -/
def compile (zone : Str) (ttl : Nat) (lines : List Str) (timestamp : Nat)
    (sha256hex : Str → Str) : Except PyError RRMap :=
  processAll zone ttl (lines.foldl process_line initState) timestamp sha256hex

/-- The deSEC defaults: `ZONE = 'query.publicsuffix.zone'`, `TTL = 86400`. -/
def defaultZone : Str := "query.publicsuffix.zone".toList

def defaultTTL : Nat := 86400

/-- A key whose child wildcard is guaranteed present (vacuous for the empty
owner and for wildcard owners). -/
def goodKey (m : RRMap) (a : Str) : Prop :=
  a ≠ [] → a.head? ≠ some '*' → starDot a ∈ dictKeys m

/-- Input `{b.c, *.b.c}` used to refute C1 as stated. -/
def linesBC : List Str := ["b.c\n".toList, "*.b.c\n".toList]

def compiledBC : RRMap :=
  match compile defaultZone defaultTTL linesBC 0 (fun _ => []) with
  | .ok m => m
  | .error _ => []

def linesCom : List Str := ["com\n".toList]

def compiledCom : RRMap :=
  match compile defaultZone defaultTTL linesCom 0 (fun _ => []) with
  | .ok m => m
  | .error _ => []

def compiledComId : RRMap :=
  match compile defaultZone defaultTTL linesCom 0 (fun s => s) with
  | .ok m => m
  | .error _ => []

/-! ## Client model (`psl_dns/querier.py`) -/

/-- Python `s.rstrip('.')`. -/
def pyRstripDots (s : Str) : Str := (s.reverse.dropWhile (fun c => c = '.')).reverse

/-- Python `s.lstrip('.')`. -/
def pyLstripDots (s : Str) : Str := s.dropWhile (fun c => c = '.')

/-- One RRset of a DNS response's answer section: owner name (absolute,
with trailing dot), record type, record data strings. -/
structure AnswerRR where
  name : Str
  rtype : RType
  records : List Str
  deriving DecidableEq, Repr

/-- `r.get_rrset(r.answer, qname, dns.rdataclass.IN, rdatatype)`: the RRset
of the answer section at the given name and type, if any. -/
def get_rrset (answer : List AnswerRR) (qname : Str) (t : RType) : Option AnswerRR :=
  answer.find? (fun r => r.name == qname && r.rtype == t)

/-- The client's CNAME-following while-loop in `PSL.query`.  The Python
loop is `while True` with no bound; the `Nat` fuel makes the unbounded
iteration a definable function: `none` means the loop has not terminated
within the given fuel.  The next qname is `rrset.items[0].to_text()`, an
absolute name on which `dns.name.from_text` is the identity. -/
def followCNAMEs (answer : List AnswerRR) : Nat → Str → Option Str
  | 0, _ => none
  | n + 1, qname =>
    match get_rrset answer qname RType.CNAME with
    | none => some qname
    | some rr => followCNAMEs answer n (rr.records.headD [])

/-- `PSL.query`: build the qname `domain.rstrip('.') + '.' + zone` (with
`self.zone = zone.rstrip('.') + '.'`), strip leading dots, retrieve the
response through `_retrieve` (abstracted as the `retrieve` oracle), follow
CNAMEs in its answer section, and extract the RRset of the requested type
at the final qname.  The outer `none` reports a non-terminating CNAME
loop. -/
def query (retrieve : Str → RType → List AnswerRR) (zone : Str) (fuel : Nat)
    (domain : Str) (t : RType) : Option (Option (List Str)) :=
  let zoneDot := pyRstripDots zone ++ ['.']
  let qname0 := pyLstripDots (pyRstripDots domain ++ '.' :: zoneDot)
  let answer := retrieve qname0 t
  match followCNAMEs answer fuel qname0 with
  | none => none
  | some q => some ((get_rrset answer q t).map (fun rr => rr.records))

/-- `PSL._get_public_suffix_raw`: PTR query; a missing RRset raises
`UnsupportedRule`; otherwise the first record's text. -/
def get_public_suffix_raw (retrieve : Str → RType → List AnswerRR) (zone : Str)
    (fuel : Nat) (domain : Str) : Option (Except PyError Str) :=
  match query retrieve zone fuel domain RType.PTR with
  | none => none
  | some none => some (.error .unsupportedRule)
  | some (some records) => some (.ok (records.headD []))

/-- The TXT-derived rule strings of `get_rules`:
`[item.to_text()[1:-1] for item in rrset]`, guarded by `if rrset:` (a
missing or empty RRset contributes nothing). -/
def txtRuleItems : Option (List Str) → List Str
  | none => []
  | some items => if items ≠ [] then items.map (fun it => (it.drop 1).dropLast) else []

/-- `PSL.get_rules`: the PTR-derived public-suffix rule (with the
`UnsupportedRule` error caught and replaced by the empty list), extended by
the TXT records stripped of their surrounding quotes, each IDNA-decoded.
Python returns this collection as a set. -/
def get_rules (retrieve : Str → RType → List AnswerRR) (zone : Str)
    (fuel : Nat) (domain : Str) : Option (Except PyError (List Str)) :=
  match get_public_suffix_raw retrieve zone fuel domain with
  | none => none
  | some res =>
    match res with
    | .error .unsupportedRule =>
      match query retrieve zone fuel domain RType.TXT with
      | none => none
      | some rrsetOpt =>
        some (.ok ((txtRuleItems rrsetOpt).map idnaDecode))
    | .error e => some (.error e)
    | .ok s =>
      match query retrieve zone fuel domain RType.TXT with
      | none => none
      | some rrsetOpt =>
        some (.ok ((pyRstripDots s :: txtRuleItems rrsetOpt).map idnaDecode))

/-- `substLabels` models the label-substitution loop of
`PSL.get_public_suffix`: walk the reversed domain and public-suffix labels
in lockstep (`zip` stops at the shorter list); replace a `*` public label
by the domain label; fail with `ValueError` when a non-wildcard public
label differs from the IDNA-encoded domain label. -/
def substLabels (dls pls : List Str) : Except PyError (List Str) :=
  match dls, pls with
  | _, [] => .ok []
  | [], pls => .ok pls
  | dl :: dls, pl :: pls =>
    if pl = ['*'] then
      match substLabels dls pls with
      | .error e => .error e
      | .ok r => .ok (dl :: r)
    else if pl ≠ idnaEncode dl then .error .valueError
    else
      match substLabels dls pls with
      | .error e => .error e
      | .ok r => .ok (pl :: r)

/-- `PSL.get_public_suffix`: `domain[0]` raises `IndexError` on the empty
string; a leading dot raises `ValueError`; then the raw PTR answer is
trimmed of its trailing dot unless the query had one, wildcard labels are
substituted right-to-left, and the result is returned in the caller's
encoding. -/
def get_public_suffix (retrieve : Str → RType → List AnswerRR) (zone : Str)
    (fuel : Nat) (domain : Str) : Option (Except PyError Str) :=
  match domain with
  | [] => some (.error .indexError)
  | c :: _ =>
    if c = '.' then some (.error .valueError)
    else
      match get_public_suffix_raw retrieve zone fuel domain with
      | none => none
      | some (.error e) => some (.error e)
      | some (.ok ps0) =>
        let ps1 := if domain.getLast? ≠ some '.' then ps0.dropLast else ps0
        let pd := idnaEncode domain
        let dls := (pd.splitOn '.').reverse
        let pls := (ps1.splitOn '.').reverse
        match substLabels dls pls with
        | .error e => some (.error e)
        | .ok pls2 =>
          let ps2 := List.intercalate ['.'] pls2.reverse
          some (.ok (if domain = pd then ps2 else idnaDecode ps2))

/-! ## The class-level query cache (`PSL._retrieve`) -/

/-- The `(qname, rdatatype) → response` cache.  In the source `_cache` is a
CLASS attribute of `PSL`: `self._cache[key] = ...` performs item assignment
on the one dict owned by the class, shared by every `PSL` instance in the
process. -/
abbrev Cache := List ((Str × RType) × List AnswerRR)

def cacheLookup (cache : Cache) (key : Str × RType) : Option (List AnswerRR) :=
  match cache with
  | [] => none
  | (k0, v0) :: rest => if k0 = key then some v0 else cacheLookup rest key

/-- `PSL._retrieve`: on a cache miss, query the instance's transport and
store the response; on a hit, return the cached response without touching
the transport.  A dns response message is always truthy, so
`not self._cache.get(key)` holds exactly when the key is absent. -/
def retrieveCached (transport : Str → RType → List AnswerRR) (cache : Cache)
    (qname : Str) (t : RType) : List AnswerRR × Cache :=
  match cacheLookup cache (qname, t) with
  | some ans => (ans, cache)
  | none =>
    let ans := transport qname t
    (ans, cache ++ [((qname, t), ans)])

/-! ## Standard DNS resolution over the compiled zone (external to the
repository: the zone is served by a standard authoritative DNS server;
modelled from RFC 1034 §4.3.2 / RFC 4592 wildcard synthesis, which the
spec's zone encoding relies on) -/

/-- A relative owner name exists in the zone if it is the apex, an owner
with records, or a strict ancestor of such an owner (an empty
non-terminal). -/
def nameExists (m : RRMap) (rel : Str) : Bool :=
  rel == [] || (dictKeys m).any (fun k => k == rel || ('.' :: rel).isSuffixOf k)

/-- The longest existing ancestor-or-self of a relative name (the closest
encloser when the name itself does not exist).  Fueled structural
recursion; `rel.length + 1` fuel always suffices. -/
def closestEncloser (m : RRMap) : Nat → Str → Str
  | 0, _ => []
  | n + 1, rel =>
    if nameExists m rel then rel
    else
      match splitOnceDot rel with
      | none => []
      | some (_, p) => closestEncloser m n p

/-- Strip the zone suffix from an absolute qname, giving the relative
owner; `none` when the qname is not in the zone. -/
def absToRel (zoneAbs : Str) (q : Str) : Option Str :=
  if q = zoneAbs then some []
  else if ('.' :: zoneAbs).isSuffixOf q then some (q.take (q.length - (zoneAbs.length + 1)))
  else none

/-- The records served from a zone node for a query of type `t`: answer any
CNAME (and chase it when `t ≠ CNAME`), else the RRset of type `t`, else
NODATA. -/
def nodeAnswer (chase : RType → Str → List AnswerRR) (rrs : List RRsetD)
    (t : RType) (q : Str) : List AnswerRR :=
  match rrs.find? (fun r => r.rtype == RType.CNAME) with
  | some crr =>
    if t = RType.CNAME then [AnswerRR.mk q RType.CNAME crr.records]
    else AnswerRR.mk q RType.CNAME crr.records :: chase t (crr.records.headD [])
  | none =>
    match rrs.find? (fun r => r.rtype == t) with
    | some rr => [AnswerRR.mk q t rr.records]
    | none => []

/-- The authoritative answer section for `(q, t)`: exact match, else NODATA
at an empty non-terminal, else RFC 4592 wildcard synthesis from
`*.<closest encloser>`, else NXDOMAIN (empty).  In-zone CNAMEs are chased
by the server, each chain link added to the answer; the fuel bounds the
chase. -/
def serverAnswer (m : RRMap) (zoneAbs : Str) : Nat → RType → Str → List AnswerRR
  | 0, _, _ => []
  | n + 1, t, q =>
    match absToRel zoneAbs q with
    | none => []
    | some rel =>
      if rel ∈ dictKeys m then
        nodeAnswer (serverAnswer m zoneAbs n) ((dictLookup m rel).getD []) t q
      else if nameExists m rel then []
      else
        let ce := closestEncloser m (rel.length + 1) rel
        if starDot ce ∈ dictKeys m then
          nodeAnswer (serverAnswer m zoneAbs n)
            ((dictLookup m (starDot ce)).getD []) t q
        else []

/-- The transport that serves the compiled zone under standard DNS
semantics. -/
def zoneTransport (m : RRMap) (zoneAbs : Str) (fuel : Nat) :
    Str → RType → List AnswerRR :=
  fun q t => serverAnswer m zoneAbs fuel t q

/-! ## C2: get_rules on the zone compiled from {ck, *.ck, !www.ck} -/

def linesCK : List Str := ["ck\n".toList, "*.ck\n".toList, "!www.ck\n".toList]

def zoneCK : RRMap :=
  match compile defaultZone defaultTTL linesCK 0 (fun _ => []) with
  | .ok m => m
  | .error _ => []

def zoneAbsCK : Str := "query.publicsuffix.zone.".toList

/-- The compiled `{ck, *.ck, !www.ck}` zone served over standard DNS. -/
def ckTransport : Str → RType → List AnswerRR := zoneTransport zoneCK zoneAbsCK 10

/-! ## C6: the CNAME-following loop -/

/-- Termination of the client's CNAME loop on a given answer section and
starting qname: some fuel makes the fueled loop return. -/
def terminatesFrom (answer : List AnswerRR) (q : Str) : Prop :=
  ∃ n, followCNAMEs answer n q ≠ none

def qnameA : Str := "a.query.publicsuffix.zone.".toList

def qnameB : Str := "b.query.publicsuffix.zone.".toList

/-- An answer section containing a two-cycle of CNAMEs. -/
def loopAnswer : List AnswerRR :=
  [AnswerRR.mk qnameA RType.CNAME [qnameB],
   AnswerRR.mk qnameB RType.CNAME [qnameA]]

/-! ## C8: the query cache is class-level, shared across instances -/

def rrVariantA : AnswerRR :=
  AnswerRR.mk ("x.query.publicsuffix.zone.".toList) RType.PTR ["a.".toList]

def rrVariantB : AnswerRR :=
  AnswerRR.mk ("x.query.publicsuffix.zone.".toList) RType.PTR ["b.".toList]

def transportA : Str → RType → List AnswerRR := fun _ _ => [rrVariantA]

def transportB : Str → RType → List AnswerRR := fun _ _ => [rrVariantB]

def qnameX : Str := "x.query.publicsuffix.zone.".toList

/-! ## Theorems -/

-- Character-level facts about `pyLowerChar`.

theorem pyLowerChar_toNat (c : Char) (h1 : 'A' ≤ c) (h2 : c ≤ 'Z') :
    (pyLowerChar c).toNat = c.toNat + 32 := by
  have hle : 65 ≤ c.toNat := h1
  have hge : c.toNat ≤ 90 := h2
  have hvalid : (c.toNat + 32).isValidChar := by
    left
    omega
  simp only [pyLowerChar, decide_eq_true_eq, h1, h2, Bool.and_self, if_true]
  simp only [Char.ofNat, hvalid, dite_true]
  rfl

theorem pyLowerChar_eq_self (c : Char) (h : ¬('A' ≤ c ∧ c ≤ 'Z')) :
    pyLowerChar c = c := by
  simp only [pyLowerChar]
  by_cases h1 : 'A' ≤ c
  · by_cases h2 : c ≤ 'Z'
    · exact absurd ⟨h1, h2⟩ h
    · simp [h2]
  · simp [h1]

theorem isPySpace_false_of_ge (c : Char) (h : 33 ≤ c.toNat) : isPySpace c = false := by
  simp only [isPySpace, Bool.or_eq_false_iff, decide_eq_false_iff_not]
  refine ⟨⟨⟨⟨⟨?_, ?_⟩, ?_⟩, ?_⟩, ?_⟩, ?_⟩ <;>
    · intro hc
      subst hc
      exact absurd h (by decide)

theorem isPySpace_pyLowerChar (c : Char) :
    isPySpace (pyLowerChar c) = isPySpace c := by
  by_cases h : 'A' ≤ c ∧ c ≤ 'Z'
  · have hval : (pyLowerChar c).toNat = c.toNat + 32 := pyLowerChar_toNat c h.1 h.2
    have hle : 65 ≤ c.toNat := h.1
    have hlow : isPySpace (pyLowerChar c) = false :=
      isPySpace_false_of_ge _ (by omega)
    have horig : isPySpace c = false :=
      isPySpace_false_of_ge _ (by omega)
    rw [hlow, horig]
  · rw [pyLowerChar_eq_self c h]

theorem pyLowerChar_idem (c : Char) :
    pyLowerChar (pyLowerChar c) = pyLowerChar c := by
  by_cases h : 'A' ≤ c ∧ c ≤ 'Z'
  · have hval : (pyLowerChar c).toNat = c.toNat + 32 := pyLowerChar_toNat c h.1 h.2
    have hle : 65 ≤ c.toNat := h.1
    have hge : c.toNat ≤ 90 := h.2
    apply pyLowerChar_eq_self
    intro hcon
    have h1 : 65 ≤ (pyLowerChar c).toNat := hcon.1
    have h2 : (pyLowerChar c).toNat ≤ 90 := hcon.2
    omega
  · simp only [pyLowerChar_eq_self c h]

theorem pyLowerChar_eq_slash (c : Char) :
    (pyLowerChar c = '/') ↔ (c = '/') := by
  constructor
  · intro hc
    by_cases h : 'A' ≤ c ∧ c ≤ 'Z'
    · exfalso
      have hval : (pyLowerChar c).toNat = c.toNat + 32 := pyLowerChar_toNat c h.1 h.2
      have hle : 65 ≤ c.toNat := h.1
      have := congrArg Char.toNat hc
      simp [hval] at this
      omega
    · rwa [pyLowerChar_eq_self c h] at hc
  · intro hc
    subst hc
    rfl

-- Facts about Python strip / lower used for the lexer idempotence claim.

theorem pyStripRight_eq_rdropWhile (s : Str) :
    pyStripRight s = List.rdropWhile isPySpace s := rfl

theorem pyStripLeft_pyStripLeft (s : Str) :
    pyStripLeft (pyStripLeft s) = pyStripLeft s :=
  List.dropWhile_idempotent isPySpace s

theorem pyStripLeft_pyStrip (s : Str) : pyStripLeft (pyStrip s) = pyStrip s := by
  unfold pyStrip
  rw [pyStripRight_eq_rdropWhile]
  set u := pyStripLeft s with hu
  have hdrop : List.dropWhile isPySpace u = u := pyStripLeft_pyStripLeft s
  unfold pyStripLeft
  rw [List.dropWhile_eq_self_iff]
  intro hl
  have hpre : List.rdropWhile isPySpace u <+: u := List.rdropWhile_prefix _ _
  rw [List.get_eq_getElem, List.IsPrefix.getElem hpre]
  have hu0 : 0 < u.length := lt_of_lt_of_le hl (List.IsPrefix.length_le hpre)
  have := List.dropWhile_eq_self_iff.mp hdrop hu0
  simpa using this

theorem pyStripRight_pyStrip (s : Str) : pyStripRight (pyStrip s) = pyStrip s := by
  show pyStripRight (pyStripRight (pyStripLeft s)) = pyStripRight (pyStripLeft s)
  rw [pyStripRight_eq_rdropWhile, pyStripRight_eq_rdropWhile]
  exact List.rdropWhile_idempotent _ _

theorem pyStrip_idem (s : Str) : pyStrip (pyStrip s) = pyStrip s := by
  show pyStripRight (pyStripLeft (pyStrip s)) = pyStrip s
  rw [pyStripLeft_pyStrip, pyStripRight_pyStrip]

theorem isPySpace_comp_pyLowerChar :
    (isPySpace ∘ pyLowerChar) = isPySpace := by
  funext c
  exact isPySpace_pyLowerChar c

theorem pyStripLeft_pyLower (s : Str) :
    pyStripLeft (pyLower s) = pyLower (pyStripLeft s) := by
  unfold pyStripLeft pyLower
  rw [List.dropWhile_map, isPySpace_comp_pyLowerChar]

theorem pyStripRight_pyLower (s : Str) :
    pyStripRight (pyLower s) = pyLower (pyStripRight s) := by
  unfold pyStripRight pyLower
  rw [← List.map_reverse, List.dropWhile_map, isPySpace_comp_pyLowerChar,
    List.map_reverse]

theorem pyStrip_pyLower (s : Str) :
    pyStrip (pyLower s) = pyLower (pyStrip s) := by
  unfold pyStrip
  rw [pyStripLeft_pyLower, pyStripRight_pyLower]

theorem pyLower_idem (s : Str) : pyLower (pyLower s) = pyLower s := by
  unfold pyLower
  rw [List.map_map]
  apply List.map_congr_left
  intro c _
  exact pyLowerChar_idem c

theorem comment_prefix_pyLower (s : Str) :
    (['/', '/'].isPrefixOf (pyLower s)) = (['/', '/'].isPrefixOf s) := by
  match s with
  | [] => rfl
  | [a] =>
    simp only [pyLower, List.map_cons, List.map_nil, List.isPrefixOf,
      Bool.and_eq_true, beq_iff_eq, List.isPrefixOf]
    simp [Bool.and_false]
  | a :: b :: t =>
    simp only [pyLower, List.map_cons, List.isPrefixOf, List.isPrefixOf_nil_left,
      Bool.and_true]
    have ha : ('/' == pyLowerChar a) = ('/' == a) := by
      by_cases h : a = '/'
      · subst h; rfl
      · have h2 : ¬('/' = pyLowerChar a) :=
          fun hc => h ((pyLowerChar_eq_slash a).mp hc.symm)
        have h3 : ¬('/' = a) := fun hc => h hc.symm
        simp [h2, h3]
    have hb : ('/' == pyLowerChar b) = ('/' == b) := by
      by_cases h : b = '/'
      · subst h; rfl
      · have h2 : ¬('/' = pyLowerChar b) :=
          fun hc => h ((pyLowerChar_eq_slash b).mp hc.symm)
        have h3 : ¬('/' = b) := fun hc => h hc.symm
        simp [h2, h3]
    rw [ha, hb]

/-- C10: the rule lexer is idempotent.  If `get_rule_from_line line = some r`,
then `get_rule_from_line r = some r`: every returned rule is already
whitespace-stripped, non-empty, not a comment, and lowercase. -/
theorem C10_lexer_idempotent (line r : Str)
    (h : get_rule_from_line line = some r) :
    get_rule_from_line r = some r := by
  unfold get_rule_from_line at h ⊢
  set candidate := pyStrip line with hcand
  by_cases hc : candidate = [] || ['/', '/'].isPrefixOf candidate
  · rw [if_pos hc] at h
    exact absurd h (by simp)
  · rw [if_neg hc] at h
    have hr : r = pyLower candidate := by
      have := Option.some.inj h
      exact this.symm
    have hfix : pyStrip candidate = candidate := by
      rw [hcand]
      exact pyStrip_idem line
    have hstrip : pyStrip r = r := by
      rw [hr, pyStrip_pyLower, hfix]
    rw [hstrip]
    have hne : candidate ≠ [] := by
      intro hnil
      apply hc
      simp [hnil]
    have hrne : ¬(r = []) := by
      rw [hr]
      intro hnil
      exact hne (List.map_eq_nil_iff.mp hnil)
    have hrpre : ¬(['/', '/'].isPrefixOf r = true) := by
      rw [hr]
      show ¬(['/', '/'].isPrefixOf (pyLower candidate) = true)
      rw [comment_prefix_pyLower]
      intro hpre
      apply hc
      simp [hpre]
    rw [if_neg (by simp [hrne, hrpre])]
    rw [hr, pyLower_idem, ← hr]

/-- Witness for C10 at a concrete input line. -/
theorem C10_lexer_idempotent_witness :
    get_rule_from_line (" Com \n".toList) = some ("com".toList) ∧
    get_rule_from_line ("com".toList) = some ("com".toList) :=
  ⟨by decide, C10_lexer_idempotent (" Com \n".toList) ("com".toList) (by decide)⟩

theorem splitOnceDot_length {s before after : Str}
    (h : splitOnceDot s = some (before, after)) : after.length < s.length := by
  unfold splitOnceDot at h
  by_cases hdot : '.' ∈ s
  · rw [if_pos hdot] at h
    have ha : after = (s.dropWhile (fun c => c ≠ '.')).drop 1 :=
      (Prod.mk.injEq _ _ _ _ ▸ Option.some.inj h).2.symm
    have hne : s.dropWhile (fun c => c ≠ '.') ≠ [] := by
      intro hnil
      have := List.dropWhile_eq_nil_iff.mp hnil '.' hdot
      simp at this
    have hlen1 : (s.dropWhile (fun c => c ≠ '.')).length ≤ s.length :=
      List.IsSuffix.length_le (List.dropWhile_suffix _)
    have hpos : 0 < (s.dropWhile (fun c => c ≠ '.')).length :=
      List.length_pos.mpr hne
    rw [ha, List.length_drop]
    omega
  · rw [if_neg hdot] at h
    exact absurd h (by simp)

/-! ## C5: classifier precedence -/

/-- C5 counterexample: for the lexed rule `!except.inline.*.wildcard.test`
(first character `'!'`, but with a `'*'` at index ≥ 1), `process_line`
stores the whole rule in the inline-wildcard bucket and leaves the
wildcard-exception bucket untouched: the inline-wildcard check runs before
the `'!'` check, contradicting the claim. -/
theorem C5_counterexample :
    (process_line initState "!except.inline.*.wildcard.test\n".toList).wildcard_exception_rules
      = [] ∧
    (process_line initState "!except.inline.*.wildcard.test\n".toList).inline_wildcard_rules
      = ["!except.inline.*.wildcard.test".toList] := by
  constructor
  · rfl
  · rfl

/-- C5 amended: a lexed rule whose first character is `'!'` goes to the
wildcard-exception bucket (stripped of `'!'`, IDNA-encoded) only when its
body has no `'*'` at index ≥ 1; when a `'*'` occurs at index ≥ 1 the
inline-wildcard check takes precedence over the `'!'` check and the rule is
stored, `'!'` intact, in the inline-wildcard bucket. -/
theorem C5_classifier_amended (st : ParserState) (line r : Str)
    (hlex : get_rule_from_line line = some r) (hbang : r.head? = some '!') :
    ((Hno : '*' ∉ r.drop 1) →
       (process_line st line).wildcard_exception_rules
         = st.wildcard_exception_rules ++ [idnaEncode (r.drop 1)] ∧
       (process_line st line).inline_wildcard_rules = st.inline_wildcard_rules) ∧
    ((Hyes : '*' ∈ r.drop 1) →
       (process_line st line).inline_wildcard_rules
         = st.inline_wildcard_rules ++ [idnaEncode r] ∧
       (process_line st line).wildcard_exception_rules = st.wildcard_exception_rules) := by
  have hstar : ¬(r.head? = some '*') := by
    rw [hbang]
    intro hcon
    exact absurd (Option.some.inj hcon) (by decide)
  constructor
  · intro hno
    unfold process_line
    rw [hlex]
    rw [List.drop_one] at hno
    simp [hno, hstar, hbang]
  · intro hyes
    unfold process_line
    rw [hlex]
    rw [List.drop_one] at hyes
    simp [hyes]

/-! ## Dictionary and pass lemmas for the wildcard-shadowing invariant -/

theorem dictKeys_dictSet_of_mem (m : RRMap) (k : Str) (v : List RRsetD)
    (h : k ∈ dictKeys m) : dictKeys (dictSet m k v) = dictKeys m := by
  unfold dictSet
  rw [if_pos h]
  unfold dictKeys
  rw [List.map_map]
  apply List.map_congr_left
  intro p _
  by_cases hp : p.1 = k
  · simp [hp]
  · simp [hp]

theorem dictKeys_dictSet_of_not_mem (m : RRMap) (k : Str) (v : List RRsetD)
    (h : k ∉ dictKeys m) : dictKeys (dictSet m k v) = dictKeys m ++ [k] := by
  unfold dictSet
  rw [if_neg h]
  unfold dictKeys
  rw [List.map_append]
  rfl

theorem mem_dictKeys_dictSet (a : Str) (m : RRMap) (k : Str) (v : List RRsetD) :
    a ∈ dictKeys (dictSet m k v) ↔ a ∈ dictKeys m ∨ a = k := by
  by_cases h : k ∈ dictKeys m
  · rw [dictKeys_dictSet_of_mem m k v h]
    constructor
    · exact fun ha => Or.inl ha
    · rintro (ha | rfl)
      · exact ha
      · exact h
  · rw [dictKeys_dictSet_of_not_mem m k v h]
    simp

theorem mem_dictKeys_update_rrsets (a : Str) (zone : Str) (ttl : Nat) (m : RRMap)
    (s : Str) (c : List (RType × RData)) :
    a ∈ dictKeys (update_rrsets zone ttl m s c) ↔ a ∈ dictKeys m ∨ a = s := by
  unfold update_rrsets
  exact mem_dictKeys_dictSet a m s _

theorem mem_keys_fixStep (zone : Str) (ttl : Nat) (m : RRMap) (rule target a : Str) :
    a ∈ dictKeys (fixStep zone ttl m rule target) ↔
      a ∈ dictKeys m ∨ a = rule ∨ a = starDot rule := by
  simp only [fixStep]
  by_cases h1 : rule ∈ dictKeys m
  · rw [if_pos h1]
    by_cases h2 : starDot rule ∈ dictKeys m
    · rw [if_pos h2]
      constructor
      · exact fun ha => Or.inl ha
      · rintro (ha | rfl | rfl)
        · exact ha
        · exact h1
        · exact h2
    · rw [if_neg h2]
      simp only [mem_dictKeys_update_rrsets]
      constructor
      · rintro (ha | rfl)
        · exact Or.inl ha
        · exact Or.inr (Or.inr rfl)
      · rintro (ha | rfl | rfl)
        · exact Or.inl ha
        · exact Or.inl h1
        · exact Or.inr rfl
  · rw [if_neg h1]
    by_cases h2 : starDot rule ∈ dictKeys (update_rrsets zone ttl m rule
      [(RType.CNAME, RData.str target)])
    · rw [if_pos h2]
      simp only [mem_dictKeys_update_rrsets] at h2 ⊢
      constructor
      · rintro (ha | rfl)
        · exact Or.inl ha
        · exact Or.inr (Or.inl rfl)
      · rintro (ha | rfl | rfl)
        · exact Or.inl ha
        · exact Or.inr rfl
        · rcases h2 with h2 | h2
          · exact Or.inl h2
          · exact Or.inr h2
    · rw [if_neg h2]
      simp only [mem_dictKeys_update_rrsets]
      constructor
      · rintro ((ha | rfl) | rfl)
        · exact Or.inl ha
        · exact Or.inr (Or.inl rfl)
        · exact Or.inr (Or.inr rfl)
      · rintro (ha | rfl | rfl)
        · exact Or.inl (Or.inl ha)
        · exact Or.inl (Or.inr rfl)
        · exact Or.inr rfl

theorem rule_mem_fixStep (zone : Str) (ttl : Nat) (m : RRMap) (rule target : Str) :
    rule ∈ dictKeys (fixStep zone ttl m rule target) :=
  (mem_keys_fixStep zone ttl m rule target rule).mpr (Or.inr (Or.inl rfl))

theorem starDot_mem_fixStep (zone : Str) (ttl : Nat) (m : RRMap) (rule target : Str) :
    starDot rule ∈ dictKeys (fixStep zone ttl m rule target) :=
  (mem_keys_fixStep zone ttl m rule target (starDot rule)).mpr (Or.inr (Or.inr rfl))

/-- Inversion principle for one run of the shadowing while-loop. -/
theorem fixWhile_zero (zone : Str) (ttl : Nat) (m : RRMap) (rule : Str) :
    fixWhile zone ttl 0 m rule = .ok m := rfl

/-- Inversion principle for one fueled iteration of the shadowing
while-loop. -/
theorem fixWhile_ok_cases (zone : Str) (ttl n : Nat) (m : RRMap) (rule : Str)
    (m' : RRMap) (hok : fixWhile zone ttl (n + 1) m rule = .ok m') :
    (rule ∈ dictKeys m ∧ starDot rule ∈ dictKeys m ∧ m' = m) ∨
    (∃ c rest, rule = c :: rest ∧
      ((splitOnceDot rule = none ∧
          m' = (if c = '*' then m else fixStep zone ttl m rule ['*'])) ∨
       (∃ fst nr, splitOnceDot rule = some (fst, nr) ∧
          fixWhile zone ttl n (if c = '*' then m
            else fixStep zone ttl m rule nr) nr = .ok m'))) := by
  simp only [fixWhile] at hok
  by_cases hcond : rule ∈ dictKeys m ∧ starDot rule ∈ dictKeys m
  · rw [if_pos hcond] at hok
    cases hok
    exact Or.inl ⟨hcond.1, hcond.2, rfl⟩
  · rw [if_neg hcond] at hok
    right
    split at hok
    · rename_i hsplit
      cases rule with
      | nil => simp at hok
      | cons c rest =>
        refine ⟨c, rest, rfl, Or.inl ⟨hsplit, ?_⟩⟩
        exact (Except.ok.inj hok).symm
    · rename_i fst nr hsplit
      cases rule with
      | nil => simp at hok
      | cons c rest => exact ⟨c, rest, rfl, Or.inr ⟨fst, nr, hsplit, hok⟩⟩

/-- Keys only grow across one run of the while-loop. -/
theorem fixWhile_ok_mono (zone : Str) (ttl : Nat) :
    ∀ (n : Nat) (rule : Str) (m m' : RRMap) (a : Str),
      fixWhile zone ttl n m rule = .ok m' → a ∈ dictKeys m → a ∈ dictKeys m' := by
  intro n
  induction n with
  | zero =>
    intro rule m m' a hok ha
    rw [fixWhile_zero] at hok
    cases hok
    exact ha
  | succ n ih =>
    intro rule m m' a hok ha
    rcases fixWhile_ok_cases zone ttl n m rule m' hok with ⟨_, _, rfl⟩ |
      ⟨c, rest, rfl, ⟨hsplit, rfl⟩ | ⟨fst, nr, hsplit, hrec⟩⟩
    · exact ha
    · by_cases hc : c = '*'
      · rwa [if_pos hc]
      · rw [if_neg hc]
        exact (mem_keys_fixStep _ _ _ _ _ _).mpr (Or.inl ha)
    · refine ih nr _ m' a hrec ?_
      by_cases hc : c = '*'
      · rwa [if_pos hc]
      · rw [if_neg hc]
        exact (mem_keys_fixStep _ _ _ _ _ _).mpr (Or.inl ha)

theorem goodKey_mono (m m' : RRMap) (a : Str)
    (hsub : ∀ x, x ∈ dictKeys m → x ∈ dictKeys m') (h : goodKey m a) :
    goodKey m' a :=
  fun h1 h2 => hsub _ (h h1 h2)

/-- Keys freshly created by one run of the while-loop are good. -/
theorem fixWhile_ok_good_new (zone : Str) (ttl : Nat) :
    ∀ (n : Nat) (rule : Str) (m m' : RRMap) (a : Str),
      fixWhile zone ttl n m rule = .ok m' → a ∈ dictKeys m' → a ∉ dictKeys m →
      goodKey m' a := by
  intro n
  induction n with
  | zero =>
    intro rule m m' a hok ha hnew
    rw [fixWhile_zero] at hok
    cases hok
    exact absurd ha hnew
  | succ n ih =>
    intro rule m m' a hok ha hnew
    rcases fixWhile_ok_cases zone ttl n m rule m' hok with ⟨_, _, rfl⟩ |
      ⟨c, rest, rfl, ⟨hsplit, rfl⟩ | ⟨fst, nr, hsplit, hrec⟩⟩
    · exact absurd ha hnew
    · by_cases hc : c = '*'
      · rw [if_pos hc] at ha
        exact absurd ha hnew
      · rw [if_neg hc] at ha ⊢
        rcases (mem_keys_fixStep _ _ _ _ _ _).mp ha with hm | rfl | rfl
        · exact absurd hm hnew
        · intro _ _
          exact starDot_mem_fixStep zone ttl m (c :: rest) ['*']
        · intro _ hhead
          exact absurd rfl hhead
    · by_cases hc : c = '*'
      · rw [if_pos hc] at hrec
        exact ih nr m m' a hrec ha hnew
      · rw [if_neg hc] at hrec
        by_cases hmid : a ∈ dictKeys (fixStep zone ttl m (c :: rest) nr)
        · rcases (mem_keys_fixStep _ _ _ _ _ _).mp hmid with hm | rfl | rfl
          · exact absurd hm hnew
          · intro _ _
            exact fixWhile_ok_mono zone ttl n nr _ m' _ hrec
              (starDot_mem_fixStep zone ttl m (c :: rest) nr)
          · intro _ hhead
            exact absurd rfl hhead
        · exact ih nr _ m' a hrec ha hmid

/-- The rule a while-loop run starts from ends up good (for any positive
fuel: the very first iteration already repairs the child wildcard). -/
theorem fixWhile_ok_processed (zone : Str) (ttl n : Nat) (rule : Str)
    (m m' : RRMap) (hok : fixWhile zone ttl (n + 1) m rule = .ok m') :
    goodKey m' rule := by
  rcases fixWhile_ok_cases zone ttl n m rule m' hok with ⟨_, hstar, rfl⟩ |
    ⟨c, rest, rfl, ⟨hsplit, rfl⟩ | ⟨fst, nr, hsplit, hrec⟩⟩
  · exact fun _ _ => hstar
  · by_cases hc : c = '*'
    · intro _ hhead
      exact absurd (by rw [hc]; rfl) hhead
    · rw [if_neg hc]
      intro _ _
      exact starDot_mem_fixStep zone ttl m (c :: rest) ['*']
  · by_cases hc : c = '*'
    · intro _ hhead
      exact absurd (by rw [hc]; rfl) hhead
    · rw [if_neg hc] at hrec
      intro _ _
      exact fixWhile_ok_mono zone ttl n nr _ m' _ hrec
        (starDot_mem_fixStep zone ttl m (c :: rest) nr)

theorem except_bind_ok {α β : Type} (x : Except PyError α) (g : α → Except PyError β)
    (b : β) (h : (x >>= g) = .ok b) : ∃ a, x = .ok a ∧ g a = .ok b := by
  cases x with
  | error e => simp [Bind.bind, Except.bind] at h
  | ok a => exact ⟨a, rfl, by simpa [Bind.bind, Except.bind] using h⟩

theorem foldFix_ok_mono (zone : Str) (ttl : Nat) :
    ∀ (ks : List Str) (m m' : RRMap) (a : Str),
      List.foldlM (fun acc k => fixWhile zone ttl (k.length + 1) acc k) m ks = .ok m' →
      a ∈ dictKeys m → a ∈ dictKeys m' := by
  intro ks
  induction ks with
  | nil =>
    intro m m' a hok ha
    simp only [List.foldlM_nil] at hok
    cases hok
    exact ha
  | cons k ks ih =>
    intro m m' a hok ha
    rw [List.foldlM_cons] at hok
    obtain ⟨m1, h1, h2⟩ := except_bind_ok _ _ _ hok
    exact ih m1 m' a h2 (fixWhile_ok_mono zone ttl (k.length + 1) k m m1 a h1 ha)

theorem foldFix_ok_good_new (zone : Str) (ttl : Nat) :
    ∀ (ks : List Str) (m m' : RRMap) (a : Str),
      List.foldlM (fun acc k => fixWhile zone ttl (k.length + 1) acc k) m ks = .ok m' →
      a ∈ dictKeys m' → a ∉ dictKeys m → goodKey m' a := by
  intro ks
  induction ks with
  | nil =>
    intro m m' a hok ha hnew
    simp only [List.foldlM_nil] at hok
    cases hok
    exact absurd ha hnew
  | cons k ks ih =>
    intro m m' a hok ha hnew
    rw [List.foldlM_cons] at hok
    obtain ⟨m1, h1, h2⟩ := except_bind_ok _ _ _ hok
    by_cases hmid : a ∈ dictKeys m1
    · exact goodKey_mono m1 m' a (fun x hx => foldFix_ok_mono zone ttl ks m1 m' x h2 hx)
        (fixWhile_ok_good_new zone ttl (k.length + 1) k m m1 a h1 hmid hnew)
    · exact ih m1 m' a h2 ha hmid

theorem foldFix_ok_processed (zone : Str) (ttl : Nat) :
    ∀ (ks : List Str) (m m' : RRMap),
      List.foldlM (fun acc k => fixWhile zone ttl (k.length + 1) acc k) m ks = .ok m' →
      ∀ k ∈ ks, goodKey m' k := by
  intro ks
  induction ks with
  | nil =>
    intro m m' _ k hk
    exact absurd hk (List.not_mem_nil k)
  | cons k0 ks ih =>
    intro m m' hok k hk
    rw [List.foldlM_cons] at hok
    obtain ⟨m1, h1, h2⟩ := except_bind_ok _ _ _ hok
    rcases List.mem_cons.mp hk with rfl | hk
    · exact goodKey_mono m1 m' k (fun x hx => foldFix_ok_mono zone ttl ks m1 m' x h2 hx)
        (fixWhile_ok_processed zone ttl k.length k m m1 h1)
    · exact ih m1 m' h2 k hk

/-- After the shadowing pass, every key of the resulting map is good. -/
theorem fix_wildcard_shadowing_good (zone : Str) (ttl : Nat) (m m' : RRMap)
    (hok : fix_wildcard_shadowing zone ttl m = .ok m') :
    ∀ a ∈ dictKeys m', goodKey m' a := by
  unfold fix_wildcard_shadowing at hok
  intro a ha
  by_cases hmem : a ∈ dictKeys m
  · exact foldFix_ok_processed zone ttl (dictKeys m) m m' hok a hmem
  · exact foldFix_ok_good_new zone ttl (dictKeys m) m m' a hok ha hmem

/-- C1 (amended): after a successful `compile`, every owner that is
non-empty and does not begin with `'*'` has its child wildcard `*.O`
present in the mapping.  (No child wildcard is created for the apex or for
wildcard owners; `*.O` may carry a pre-existing PTR or TXT RRset instead of
a CNAME; and the upward repair of intermediate ancestors can stop early at
a level where both the name and its child wildcard already exist, leaving a
higher ancestor such as `c` in `{b.c, *.b.c}` without any RRset.) -/
theorem C1_shadowing_amended (zone : Str) (ttl : Nat) (lines : List Str)
    (t : Nat) (H : Str → Str) (Z : RRMap)
    (hok : compile zone ttl lines t H = .ok Z) :
    ∀ O ∈ dictKeys Z, O ≠ [] → O.head? ≠ some '*' → starDot O ∈ dictKeys Z := by
  unfold compile processAll at hok
  obtain ⟨m7, hfix, hpure⟩ := except_bind_ok _ _ _ hok
  have hZ := Except.ok.inj hpure
  intro O hO hne hhead
  rw [← hZ] at hO ⊢
  rcases (mem_dictKeys_update_rrsets _ _ _ _ _ _).mp hO with hm | rfl
  · have hg := fix_wildcard_shadowing_good zone ttl _ m7 hfix O hm
    exact (mem_dictKeys_update_rrsets _ _ _ _ _ _).mpr (Or.inl (hg hne hhead))
  · exact absurd rfl hne

/-- C1 counterexample: compiling `{b.c, *.b.c}` succeeds, yet (i) the owner
`*` is present while its child wildcard `*.*` is not, (ii) the owner `b.c`
is present while its intermediate ancestor `c` has neither an RRset nor a
CNAME, and (iii) `*.b.c` carries a PTR, not a CNAME to `b.c`, although
`b.c` is not a wildcard owner.  Each conjunct contradicts part of the
claim. -/
theorem C1_counterexample :
    compile defaultZone defaultTTL linesBC 0 (fun _ => []) = Except.ok compiledBC ∧
    (['*'] ∈ dictKeys compiledBC ∧ starDot ['*'] ∉ dictKeys compiledBC) ∧
    ("b.c".toList ∈ dictKeys compiledBC ∧ "c".toList ∉ dictKeys compiledBC) ∧
    ((dictLookup compiledBC (starDot "b.c".toList)).map (fun l => l.map RRsetD.rtype)
       = some [RType.PTR]) := by
  refine ⟨rfl, ⟨by decide, by decide⟩, ⟨by decide, by decide⟩, rfl⟩

/-- Witness for C1 amended: in the zone compiled from `{com}`, the owner
`com` is non-empty, not a wildcard, and its child wildcard `*.com` is
present. -/
theorem C1_shadowing_amended_witness :
    starDot "com".toList ∈ dictKeys compiledCom :=
  C1_shadowing_amended defaultZone defaultTTL linesCom 0 (fun _ => []) compiledCom rfl
    "com".toList (by decide) (by decide) (by decide)

/-! ## C3 and C7: apex TXT, checksum, determinism -/

theorem process_line_hashedInput (st : ParserState) (line : Str) :
    (process_line st line).hashedInput = st.hashedInput ++ line := by
  unfold process_line
  cases get_rule_from_line line with
  | none => rfl
  | some r => simp only [apply_ite ParserState.hashedInput, ite_self]

theorem foldl_process_line_hashedInput (lines : List Str) (st : ParserState) :
    (lines.foldl process_line st).hashedInput = st.hashedInput ++ lines.flatten := by
  induction lines generalizing st with
  | nil => simp
  | cons l ls ih =>
    rw [List.foldl_cons, ih, process_line_hashedInput]
    simp

theorem dictLookup_dictSet_self (m : RRMap) (k : Str) (v : List RRsetD) :
    dictLookup (dictSet m k v) k = some v := by
  unfold dictSet
  by_cases hmem : k ∈ dictKeys m
  · rw [if_pos hmem]
    induction m with
    | nil => exact absurd hmem (by simp [dictKeys])
    | cons p rest ih =>
      rw [List.map_cons]
      by_cases hp : p.1 = k
      · rw [if_pos hp]
        simp only [dictLookup]
        rw [if_true]
      · rw [if_neg hp]
        simp only [dictLookup]
        rw [if_neg hp]
        apply ih
        rcases List.mem_cons.mp (show k ∈ p.1 :: dictKeys rest from hmem) with hh | hh
        · exact absurd hh.symm hp
        · exact hh
  · rw [if_neg hmem]
    induction m with
    | nil =>
      rw [List.nil_append]
      simp only [dictLookup]
      rw [if_true]
    | cons p rest ih =>
      have hp : ¬(p.1 = k) := fun hc =>
        hmem (List.mem_cons.mpr (Or.inl hc.symm))
      have hmem2 : k ∉ dictKeys rest := fun hc =>
        hmem (List.mem_cons.mpr (Or.inr hc))
      rw [List.cons_append]
      simp only [dictLookup]
      rw [if_neg hp]
      exact ih hmem2

theorem dictLookup_dictSet_ne (m : RRMap) (k : Str) (v : List RRsetD) (a : Str)
    (h : a ≠ k) : dictLookup (dictSet m k v) a = dictLookup m a := by
  unfold dictSet
  by_cases hmem : k ∈ dictKeys m
  · rw [if_pos hmem]
    clear hmem
    induction m with
    | nil => rfl
    | cons p rest ih =>
      rw [List.map_cons]
      by_cases hp : p.1 = k
      · rw [if_pos hp]
        simp only [dictLookup]
        have hka : ¬(k = a) := fun hc => h hc.symm
        have hpa : ¬(p.1 = a) := fun hc => h ((hp.symm.trans hc).symm)
        rw [if_neg hka, if_neg hpa]
        exact ih
      · rw [if_neg hp]
        simp only [dictLookup]
        by_cases hpa : p.1 = a
        · rw [if_pos hpa, if_pos hpa]
        · rw [if_neg hpa, if_neg hpa]
          exact ih
  · rw [if_neg hmem]
    clear hmem
    induction m with
    | nil =>
      rw [List.nil_append]
      simp only [dictLookup]
      rw [if_neg (fun hc : k = a => h hc.symm)]
    | cons p rest ih =>
      rw [List.cons_append]
      simp only [dictLookup]
      by_cases hpa : p.1 = a
      · rw [if_pos hpa, if_pos hpa]
      · rw [if_neg hpa, if_neg hpa]
        exact ih

theorem dictKeys_dictSet_eq (m : RRMap) (k : Str) (v w : List RRsetD) :
    dictKeys (dictSet m k v) = dictKeys (dictSet m k w) := by
  by_cases hmem : k ∈ dictKeys m
  · rw [dictKeys_dictSet_of_mem m k v hmem, dictKeys_dictSet_of_mem m k w hmem]
  · rw [dictKeys_dictSet_of_not_mem m k v hmem, dictKeys_dictSet_of_not_mem m k w hmem]

/-- Helper: the apex lookup after a successful compile. -/
theorem apex_txt_lookup (zone : Str) (ttl : Nat) (lines : List Str) (t : Nat)
    (H : Str → Str) (Z : RRMap) (hok : compile zone ttl lines t H = .ok Z) :
    dictLookup Z [] =
      some [RRsetD.mk [] ttl RType.TXT
        [quoteStr (natChars t ++ ' ' :: H lines.flatten)]] := by
  unfold compile processAll at hok
  obtain ⟨m7, hfix, hpure⟩ := except_bind_ok _ _ _ hok
  have hZ := Except.ok.inj hpure
  rw [← hZ]
  unfold update_rrsets
  rw [List.map_cons, List.map_nil]
  rw [dictLookup_dictSet_self]
  have hhash : (List.foldl process_line initState lines).hashedInput = lines.flatten := by
    rw [foldl_process_line_hashedInput]
    rfl
  rw [hhash]
  rfl

/-- C3: after a successful compile, the apex owner (empty subname) carries
exactly one RRset: a TXT with a single record `"<timestamp> <hexdigest>"`,
where the digest function is applied to exactly the concatenation of the
raw input lines in the order they were read. -/
theorem C3_apex_checksum (zone : Str) (ttl : Nat) (lines : List Str) (t : Nat)
    (H : Str → Str) (Z : RRMap) (hok : compile zone ttl lines t H = .ok Z) :
    dictLookup Z [] =
      some [RRsetD.mk [] ttl RType.TXT
        [quoteStr (natChars t ++ ' ' :: H lines.flatten)]] :=
  apex_txt_lookup zone ttl lines t H Z hok

/-- Witness for C3 at a concrete input (with the identity function standing
in for the abstract hash). -/
theorem C3_apex_checksum_witness :
    dictLookup compiledComId [] =
      some [RRsetD.mk [] defaultTTL RType.TXT
        [quoteStr (natChars 0 ++ ' ' :: ("com\n".toList))]] := by
  have h := C3_apex_checksum defaultZone defaultTTL linesCom 0 (fun s => s)
    compiledComId rfl
  simpa [linesCom] using h

/-- C7: compile output is a pure function of (input bytes, timestamp,
provider zone/ttl profile, hash function), and two runs differing only in
the timestamp produce mappings with the same keys and identical RRsets at
every owner except the apex, where both carry a single TXT record
`"<timestamp> <digest>"` with the same digest and only the timestamp
differing. -/
theorem C7_determinism (zone : Str) (ttl : Nat) (lines : List Str)
    (t1 t2 : Nat) (H : Str → Str) (Z1 Z2 : RRMap)
    (h1 : compile zone ttl lines t1 H = .ok Z1)
    (h2 : compile zone ttl lines t2 H = .ok Z2) :
    dictKeys Z1 = dictKeys Z2 ∧
    (∀ k, k ≠ [] → dictLookup Z1 k = dictLookup Z2 k) ∧
    dictLookup Z1 [] =
      some [RRsetD.mk [] ttl RType.TXT
        [quoteStr (natChars t1 ++ ' ' :: H lines.flatten)]] ∧
    dictLookup Z2 [] =
      some [RRsetD.mk [] ttl RType.TXT
        [quoteStr (natChars t2 ++ ' ' :: H lines.flatten)]] := by
  refine ⟨?_, ?_, apex_txt_lookup zone ttl lines t1 H Z1 h1,
    apex_txt_lookup zone ttl lines t2 H Z2 h2⟩
  all_goals
    unfold compile processAll at h1 h2
    obtain ⟨m7, hfix, hpure⟩ := except_bind_ok _ _ _ h1
    obtain ⟨m7b, hfixb, hpureb⟩ := except_bind_ok _ _ _ h2
    have hsame : m7b = m7 := Except.ok.inj (hfixb.symm.trans hfix)
    subst hsame
    have hZ1 := Except.ok.inj hpure
    have hZ2 := Except.ok.inj hpureb
    rw [← hZ1, ← hZ2]
  · unfold update_rrsets
    exact dictKeys_dictSet_eq _ _ _ _
  · intro k hk
    unfold update_rrsets
    rw [dictLookup_dictSet_ne _ _ _ _ hk, dictLookup_dictSet_ne _ _ _ _ hk]

/-- Witness for C7 at a concrete input and two timestamps. -/
theorem C7_determinism_witness :
    dictLookup compiledCom ("com".toList) =
      dictLookup (match compile defaultZone defaultTTL linesCom 5 (fun _ => []) with
        | .ok m => m
        | .error _ => []) ("com".toList) := by
  have h := (C7_determinism defaultZone defaultTTL linesCom 0 5 (fun _ => [])
    compiledCom _ rfl rfl).2.1 ("com".toList) (by decide)
  exact h

/-- C2 counterexample: on the zone compiled from `{ck, *.ck, !www.ck}`,
`get_rules("www.ck")` evaluates to the set `{ck, *.ck, !www.ck}` — the
PTR-derived rule `ck` is a member, so the result is not the claimed set
`{!www.ck, *.ck}`. -/
theorem C2_counterexample :
    get_rules ckTransport defaultZone 10 ("www.ck".toList) =
      some (.ok ["ck".toList, "*.ck".toList, "!www.ck".toList]) ∧
    "ck".toList ∉ ["!www.ck".toList, "*.ck".toList] := by
  exact ⟨rfl, by decide⟩

/-- C2 amended: `get_rules("www.ck")` on that zone returns exactly the set
`{"ck", "*.ck", "!www.ck"}`: the TXT-listed rules plus the PTR-derived
public-suffix rule `ck`. -/
theorem C2_get_rules_amended :
    get_rules ckTransport defaultZone 10 ("www.ck".toList) =
      some (.ok ["ck".toList, "*.ck".toList, "!www.ck".toList]) := rfl

/-! ## C4: invalid domains in get_public_suffix -/

/-- C4 counterexample: for the empty domain, `domain[0]` raises
`IndexError`, not the `ValueError` (`InvalidDomain`) the claim names.  (It
still performs no DNS query: the result is this error for every
transport.) -/
theorem C4_counterexample :
    get_public_suffix (fun _ _ => []) defaultZone 3 [] =
      some (.error PyError.indexError) ∧
    PyError.indexError ≠ PyError.valueError :=
  ⟨rfl, by decide⟩

/-- C4 amended: for a domain beginning with `'.'` the call fails with
`ValueError` (`InvalidDomain`), and for the empty domain it fails with
`IndexError` from the `domain[0]` access; in both cases the result is the
same for every transport oracle, i.e. no DNS query is performed. -/
theorem C4_invalid_domain_amended (retrieve : Str → RType → List AnswerRR)
    (zone : Str) (fuel : Nat) (domain : Str) :
    (domain = [] →
      get_public_suffix retrieve zone fuel domain = some (.error PyError.indexError)) ∧
    (domain.head? = some '.' →
      get_public_suffix retrieve zone fuel domain = some (.error PyError.valueError)) := by
  constructor
  · rintro rfl
    rfl
  · intro hh
    cases domain with
    | nil => exact absurd hh (by simp)
    | cons c rest =>
      have hc : c = '.' := by simpa using hh
      subst hc
      rfl

/-- Witness for C4 amended at the concrete domain `.desec.io`. -/
theorem C4_invalid_domain_amended_witness :
    get_public_suffix (fun _ _ => []) defaultZone 3 (".desec.io".toList) =
      some (.error PyError.valueError) :=
  (C4_invalid_domain_amended (fun _ _ => []) defaultZone 3 (".desec.io".toList)).2
    (by decide)

/-- C6 counterexample: the `while True` loop has no bound; on an answer
section whose CNAMEs form a cycle, no amount of fuel makes it terminate,
so no fixed bound (16 or otherwise) exists in the code. -/
theorem C6_counterexample : ¬ terminatesFrom loopAnswer qnameA := by
  have key : ∀ n q, q = qnameA ∨ q = qnameB →
      followCNAMEs loopAnswer n q = none := by
    intro n
    induction n with
    | zero =>
      rintro q (rfl | rfl) <;> rfl
    | succ n ih =>
      rintro q (rfl | rfl)
      · exact ih qnameB (Or.inr rfl)
      · exact ih qnameA (Or.inl rfl)
  rintro ⟨n, hn⟩
  exact hn (key n qnameA (Or.inl rfl))

/-- C6 amended: the loop stops exactly when the answer holds no CNAME
RRset at the current qname — then one iteration returns that qname for any
fuel — but the code imposes no bound on chain length, so a CNAME loop in
the answer section makes the client loop forever. -/
theorem C6_loop_amended (answer : List AnswerRR) (q : Str) (n : Nat)
    (h : get_rrset answer q RType.CNAME = none) :
    followCNAMEs answer (n + 1) q = some q := by
  show (match get_rrset answer q RType.CNAME with
    | none => some q
    | some rr => followCNAMEs answer n (rr.records.headD [])) = some q
  rw [h]

/-- Witness for C6 amended: an empty answer section has no CNAME at the
qname, so the loop stops at once. -/
theorem C6_loop_amended_witness :
    followCNAMEs [] 1 qnameA = some qnameA :=
  C6_loop_amended [] qnameA 0 rfl

/-- C8 counterexample: `_cache` is a class attribute, one dict shared by
all PSL instances.  A first instance (resolver `transportA`) populates the
cache; a second instance with a different resolver (`transportB`) then
receives the first instance's cached answer instead of its own resolver's
answer — the cache is not per-instance state. -/
theorem C8_counterexample :
    (retrieveCached transportB
        (retrieveCached transportA [] qnameX RType.PTR).2 qnameX RType.PTR).1
      = (retrieveCached transportA [] qnameX RType.PTR).1 ∧
    (retrieveCached transportB
        (retrieveCached transportA [] qnameX RType.PTR).2 qnameX RType.PTR).1
      ≠ transportB qnameX RType.PTR :=
  ⟨rfl, by decide⟩

theorem cacheLookup_append_of_some (c e : Cache) (k : Str × RType)
    (v : List AnswerRR) (h : cacheLookup c k = some v) :
    cacheLookup (c ++ e) k = some v := by
  induction c with
  | nil => simp [cacheLookup] at h
  | cons p rest ih =>
    rw [List.cons_append]
    simp only [cacheLookup] at h ⊢
    by_cases hp : p.1 = k
    · rwa [if_pos hp] at h ⊢
    · rw [if_neg hp] at h ⊢
      exact ih h

/-- C8 amended: the cache is a single class-level mapping shared by every
PSL instance in the process (see the counterexample); within that shared
mapping, `_retrieve` writes only on a miss — a hit returns the cached
answer and leaves the cache unchanged — and no entry is ever evicted or
overwritten. -/
theorem C8_cache_amended (transport : Str → RType → List AnswerRR)
    (cache : Cache) (qname : Str) (t : RType) :
    (∀ a, cacheLookup cache (qname, t) = some a →
       retrieveCached transport cache qname t = (a, cache)) ∧
    (∀ k v, cacheLookup cache k = some v →
       cacheLookup (retrieveCached transport cache qname t).2 k = some v) := by
  constructor
  · intro a ha
    unfold retrieveCached
    rw [ha]
  · intro k v hv
    unfold retrieveCached
    cases hc : cacheLookup cache (qname, t) with
    | some a => exact hv
    | none => exact cacheLookup_append_of_some _ _ _ _ hv

/-- Witness for C8 amended: a hit on a one-entry cache returns the cached
answer without writing, and the entry survives a miss on another key. -/
theorem C8_cache_amended_witness :
    retrieveCached transportB [((qnameX, RType.PTR), [rrVariantA])] qnameX RType.PTR
      = ([rrVariantA], [((qnameX, RType.PTR), [rrVariantA])]) ∧
    cacheLookup (retrieveCached transportB [((qnameX, RType.PTR), [rrVariantA])]
        qnameX RType.TXT).2 (qnameX, RType.PTR) = some [rrVariantA] :=
  ⟨(C8_cache_amended transportB [((qnameX, RType.PTR), [rrVariantA])] qnameX
      RType.PTR).1 [rrVariantA] rfl,
   (C8_cache_amended transportB [((qnameX, RType.PTR), [rrVariantA])] qnameX
      RType.TXT).2 (qnameX, RType.PTR) [rrVariantA] rfl⟩

/-! ## C9: get_rules never propagates UnsupportedRule -/

/-- C9: `get_rules` never returns an error: the `UnsupportedRule` raised by
`_get_public_suffix_raw` on a missing PTR RRset is caught, and in that case
the result is the set built from the TXT records alone (empty if there are
none). -/
theorem C9_no_unsupported (retrieve : Str → RType → List AnswerRR) (zone : Str)
    (fuel : Nat) (domain : Str) :
    (∀ e : PyError, get_rules retrieve zone fuel domain ≠ some (.error e)) ∧
    (query retrieve zone fuel domain RType.PTR = some none →
      ∀ txtOpt, query retrieve zone fuel domain RType.TXT = some txtOpt →
        get_rules retrieve zone fuel domain =
          some (.ok ((txtRuleItems txtOpt).map idnaDecode))) := by
  constructor
  · intro e
    unfold get_rules get_public_suffix_raw
    cases hq : query retrieve zone fuel domain RType.PTR with
    | none => simp
    | some o =>
      cases o with
      | none =>
        cases hqt : query retrieve zone fuel domain RType.TXT <;> simp
      | some recs =>
        cases hqt : query retrieve zone fuel domain RType.TXT <;> simp
  · intro hptr txtOpt htxt
    unfold get_rules get_public_suffix_raw
    rw [hptr, htxt]

/-- Witness for C9: a transport whose answers are empty yields NODATA on
both PTR and TXT; `get_rules` returns the empty set instead of raising. -/
theorem C9_no_unsupported_witness :
    get_rules (fun _ _ => []) defaultZone 3 ("x.y".toList) = some (.ok []) :=
  (C9_no_unsupported (fun _ _ => []) defaultZone 3 ("x.y".toList)).2 rfl none rfl

/-- Witness for C5 amended at the concrete rule `!www.ck`. -/
theorem C5_classifier_amended_witness :
    (process_line initState "!www.ck\n".toList).wildcard_exception_rules
      = [idnaEncode ("www.ck".toList)] ∧
    (process_line initState "!www.ck\n".toList).inline_wildcard_rules = [] := by
  have h := (C5_classifier_amended initState "!www.ck\n".toList "!www.ck".toList
    (by decide) (by decide)).1 (by decide)
  exact ⟨by rw [h.1]; rfl, h.2⟩

end PslDns
